import Mathlib

/-!
Verification of the html-tool pipeline (src/main.go).

The file shallowly embeds the program's data model and operations:

* the HTML tokenizer and parser (golang.org/x/net/html) and the CSS
  selector matcher (github.com/ericchiang/css) are external collaborators;
  extraction strategies are therefore embedded as functions over the token
  sequence (`Token`) respectively the list of matched nodes (`HNode`) those
  collaborators deliver;
* Go's net/url parsing (`url.ParseRequestURI`, `url.Parse`) is an external
  collaborator as well; it is modelled at its interface by `parseGo`,
  faithful to the documented splitting and validation rules for inputs
  without percent-escapes (escape decoding is not modelled: a `%` in a
  host or userinfo is treated as invalid);
* the consumer goroutine, the producing loop and the per-fetch callback of
  `main` are embedded as event-trace producing functions (`consumeTarget`,
  `consumeRun`, `producerRun`, `fetchCallback`); the nil-pointer
  dereference reachable in `extractAttribs` is modelled by `Except.error`.
-/

namespace HT

/-- Token types of the streaming HTML tokenizer collaborator. -/
inductive TokType where
  | Error
  | Text
  | StartTag
  | EndTag
  | SelfClosing
  | Comment
  | Doctype
deriving DecidableEq

/-- One token as delivered by the tokenizer: its type, its data (tag name
for tags, text for text tokens, body for comments) and its attribute
key/value pairs. -/
structure Token where
  typ : TokType
  data : String
  attrs : List (String × String)

/-- Result of Go's net/url parsing, restricted to the fields the program
reads (u.Scheme, u.Host, u.Path). -/
structure GoURL where
  scheme : String
  host : String
  path : String
deriving DecidableEq

/-- Model of strings.ToLower restricted to ASCII (the only case the
program's prefix checks depend on), written over the character list so
that it evaluates by kernel reduction. -/
def toLowerGo (s : String) : String :=
  String.mk (s.toList.map Char.toLower)

/-- Model of strings.TrimSpace: drop whitespace from both ends. -/
def trimGo (s : String) : String :=
  String.mk (((s.toList.dropWhile Char.isWhitespace).reverse.dropWhile Char.isWhitespace).reverse)

/-- Model of strings.HasPrefix, written over character lists. -/
def startsWithGo (s pre : String) : Bool :=
  pre.toList.isPrefixOf s.toList

/-- Model of strings.Replace(s, newline, space, -1): the pattern is the
single newline character, so the replacement is a character map. -/
def replaceNewlines (s : String) : String :=
  String.mk (s.toList.map (fun c => if c = '\n' then ' ' else c))

/-- Scheme splitting of Go's net/url getScheme: scan the characters; a
leading run of scheme characters (first alphabetic) terminated by a colon
is the scheme; a colon at position zero is an error; any other character
before a colon means the string has no scheme. -/
def schemeSplit : List Char → List Char → Except Unit (Option (String × List Char))
  | [], _ => Except.ok none
  | c :: rest, acc =>
    if c.isAlpha then schemeSplit rest (acc ++ [c])
    else if c.isDigit || c == '+' || c == '-' || c == '.' then
      (if acc.isEmpty then Except.ok none else schemeSplit rest (acc ++ [c]))
    else if c == ':' then
      (if acc.isEmpty then Except.error () else Except.ok (some (String.mk acc, rest)))
    else Except.ok none

/-- Characters Go's net/url accepts unescaped inside a host name. -/
def hostChar (c : Char) : Bool :=
  c.isAlphanum ||
    ['-', '_', '.', '~', '!', '$', '&', Char.ofNat 39, '(', ')', '*', '+', ',',
      ';', '=', ':', '[', ']', '<', '>', Char.ofNat 34].contains c

/-- Characters Go's net/url accepts in the userinfo component. -/
def userinfoChar (c : Char) : Bool :=
  c.isAlphanum ||
    ['-', '.', '_', ':', '~', '!', '$', '&', Char.ofNat 39, '(', ')', '*', '+',
      ',', ';', '=', '%', '@'].contains c

/-- Index of the last occurrence of a character in a list. -/
def lastIdxOf (c : Char) (cs : List Char) : Option Nat :=
  ((cs.enum.filter (fun p => p.2 == c)).getLast?).map (fun p => p.1)

/-- Host validation of Go's net/url parseHost: characters must be valid
host characters; a bracketed host needs a closing bracket followed by at
most a colon-digits port; otherwise everything after the last colon must
be a digits-only port. -/
def parseHostGo (cs : List Char) : Except Unit String :=
  if !(cs.all hostChar) then Except.error ()
  else if cs.head? = some '[' then
    match lastIdxOf ']' cs with
    | none => Except.error ()
    | some i =>
      match cs.drop (i + 1) with
      | [] => Except.ok (String.mk cs)
      | c :: port =>
        if c = ':' ∧ port.all Char.isDigit then Except.ok (String.mk cs)
        else Except.error ()
  else
    match lastIdxOf ':' cs with
    | none => Except.ok (String.mk cs)
    | some i =>
      if (cs.drop (i + 1)).all Char.isDigit then Except.ok (String.mk cs)
      else Except.error ()

/-- Authority parsing of Go's net/url: userinfo before the last `@` is
validated character-wise, the remainder is the host. -/
def parseAuthority (cs : List Char) : Except Unit String :=
  match lastIdxOf '@' cs with
  | none => parseHostGo cs
  | some i =>
    if (cs.take i).all userinfoChar then parseHostGo (cs.drop (i + 1))
    else Except.error ()

/-- Control-byte check of Go's net/url parse. -/
def hasCTL (s : String) : Bool :=
  s.toList.any (fun c => c.toNat < 32 || c.toNat == 127)

/-- Model of Go's net/url parse(rawURL, viaRequest) at the interface used
by the program: control bytes are rejected; an empty URL is rejected in
request context; the scheme is split off and lowercased; the query is cut
at the first question mark; a rest not starting with a slash is opaque
when a scheme is present, rejected in request context otherwise, and a
relative path whose first segment must not contain a colon otherwise; a
rest starting with a double slash carries an authority up to the next
slash. Percent-escape decoding is not modelled. -/
def parseGo (raw : String) (viaRequest : Bool) : Except Unit GoURL :=
  if hasCTL raw then Except.error ()
  else if raw = "" then (if viaRequest then Except.error () else Except.ok ⟨"", "", ""⟩)
  else if raw = "*" then Except.ok ⟨"", "", "*"⟩
  else
    match schemeSplit raw.toList [] with
    | Except.error _ => Except.error ()
    | Except.ok os =>
      let scheme := match os with
        | none => ""
        | some p => toLowerGo p.1
      let afterScheme := match os with
        | none => raw.toList
        | some p => p.2
      let rest := afterScheme.takeWhile (fun c => !(c == '?'))
      match rest with
      | '/' :: '/' :: more =>
        let authority := more.takeWhile (fun c => !(c == '/'))
        let rest2 := more.dropWhile (fun c => !(c == '/'))
        (match parseAuthority authority with
        | Except.error _ => Except.error ()
        | Except.ok host => Except.ok ⟨scheme, host, String.mk rest2⟩)
      | '/' :: _ => Except.ok ⟨scheme, "", String.mk rest⟩
      | _ =>
        if scheme ≠ "" then Except.ok ⟨scheme, "", ""⟩
        else if viaRequest then Except.error ()
        else if (rest.takeWhile (fun c => !(c == '/'))).contains ':' then Except.error ()
        else Except.ok ⟨"", "", String.mk rest⟩

/-- Model of url.ParseRequestURI: parse in request context. -/
def parseRequestURI (s : String) : Option GoURL :=
  (parseGo s true).toOption

/-- Model of url.Parse: the fragment is cut at the first hash sign, the
remainder is parsed outside request context. -/
def parseURL (s : String) : Option GoURL :=
  (parseGo (String.mk (s.toList.takeWhile (fun c => !(c == '#')))) false).toOption

/-- Success of http.NewRequest("GET", location, nil): for a valid method
this is exactly success of url.Parse. -/
def newRequestOk (s : String) : Bool :=
  (parseURL s).isSome

/-- Embedding of extractComments (main.go lines 176-200): walk the token
sequence until the tokenizer stops; for every comment token replace each
newline by a space, trim, and keep the result when non-empty. -/
def extractComments (toks : List Token) : List String :=
  match toks with
  | [] => []
  | t :: rest =>
    if t.typ = TokType.Comment then
      let d := trimGo (replaceNewlines t.data)
      (if d = "" then extractComments rest else d :: extractComments rest)
    else extractComments rest

/-- Embedding of the inner loop of extractTags (main.go lines 270-280):
for the current start tag with name d, iterate over the requested tag
names; every entry equal to d calls z.Next() once more, consuming the next
token from the stream; when that token is a text token its trimmed data is
emitted if non-empty. Returns the remaining stream and the emissions. At
the end of the stream z.Next() keeps yielding ErrorToken, never a text
token, so nothing further is consumed or emitted. -/
def tagsInner (d : String) : List String → List Token → List Token × List String
  | [], rest => (rest, [])
  | tag :: tl, [] =>
    if d = tag then tagsInner d tl [] else tagsInner d tl []
  | tag :: tl, n :: rest2 =>
    if d = tag then
      let e := if n.typ = TokType.Text ∧ trimGo n.data ≠ "" then [trimGo n.data] else []
      let p := tagsInner d tl rest2
      (p.1, e ++ p.2)
    else tagsInner d tl (n :: rest2)

/-- The remaining stream after the inner tags loop is no longer than the
incoming stream. -/
theorem tagsInner_length_le (d : String) (tags : List String) (rest : List Token) :
    (tagsInner d tags rest).1.length ≤ rest.length := by
  induction tags generalizing rest with
  | nil => simp [tagsInner]
  | cons tag tl ih =>
    cases rest with
    | nil =>
      by_cases h : d = tag <;> simpa [tagsInner, h] using ih []
    | cons n rest2 =>
      by_cases h : d = tag
      · subst h
        have h2 := ih rest2
        simp [tagsInner]
        omega
      · simpa [tagsInner, h] using ih (n :: rest2)

/-- Outer loop of extractTags (main.go lines 255-284), fuelled so that the
definition stays structural: one token is consumed per step and the inner
loop only ever consumes further, so fuel equal to the stream length is
enough. -/
def extractTagsFuel (tags : List String) : Nat → List Token → List String
  | 0, _ => []
  | _ + 1, [] => []
  | k + 1, t :: rest =>
    if t.typ = TokType.StartTag then
      (tagsInner t.data tags rest).2 ++ extractTagsFuel tags k (tagsInner t.data tags rest).1
    else extractTagsFuel tags k rest

/-- Embedding of extractTags (main.go lines 255-284). -/
def extractTags (toks : List Token) (tags : List String) : List String :=
  extractTagsFuel tags toks.length toks

/-- Embedding of the per-match block of extractAttribs (main.go lines
225-247) for one attribute token whose key equals the requested name
attrib and whose value is val. When the lowercased origin passes the
prefix test (Go parses the condition as
http-prefix OR (https-prefix AND (src OR href)), since AND binds tighter),
the origin is parsed with url.ParseRequestURI; on error the raw value is
appended and control still falls into the normalization branches with a
nil u, so a value starting with a single slash, or one that itself fails
to parse, dereferences the nil pointer (modelled as Except.error). -/
def attribVal (location attrib val : String) : Except Unit (List String) :=
  let nl := toLowerGo location
  if startsWithGo nl "http:" || startsWithGo nl "https:" && (attrib == "src" || attrib == "href") then
    match parseRequestURI location with
    | some u =>
      if startsWithGo val "//" then Except.ok ["https:" ++ val]
      else if startsWithGo val "/" then Except.ok [u.scheme ++ "://" ++ u.host ++ val]
      else
        (match parseRequestURI val with
        | none => Except.ok [u.scheme ++ "://" ++ u.host ++ u.path ++ val]
        | some _ => Except.ok [val])
    | none =>
      if startsWithGo val "//" then Except.ok [val, "https:" ++ val]
      else if startsWithGo val "/" then Except.error ()
      else
        (match parseRequestURI val with
        | none => Except.error ()
        | some _ => Except.ok [val, val])
  else Except.ok [val]

/-- Inner loop over the requested attribute names (main.go line 223): the
loop does not stop at the first match, so every entry equal to the token
attribute key processes the value once more. -/
def overAttribs (location key val : String) : List String → Except Unit (List String)
  | [] => Except.ok []
  | attrib :: rest =>
    if attrib = key then do
      let v ← attribVal location attrib val
      let r ← overAttribs location key val rest
      Except.ok (v ++ r)
    else overAttribs location key val rest

/-- Loop over the attributes of one token (main.go line 217): attributes
with empty value are skipped before any name matching. -/
def overAttrs (location : String) (attribs : List String) : List (String × String) → Except Unit (List String)
  | [] => Except.ok []
  | (k, v) :: rest =>
    if v = "" then overAttrs location attribs rest
    else do
      let a ← overAttribs location k v attribs
      let r ← overAttrs location attribs rest
      Except.ok (a ++ r)

/-- Embedding of extractAttribs (main.go lines 202-253): every token's
attributes are scanned; the error value models the nil-pointer
dereference reachable when the origin fails to parse. -/
def extractAttribs (location : String) (toks : List Token) (attribs : List String) :
    Except Unit (List String) :=
  match toks with
  | [] => Except.ok []
  | t :: rest => do
    let a ← overAttrs location attribs t.attrs
    let r ← extractAttribs location rest attribs
    Except.ok (a ++ r)

/-- Node of the parsed HTML tree as used by extractSelector: only the
data field and the child list are read. -/
inductive HNode where
  | node : String → List HNode → HNode

/-- Data field of a node. -/
def HNode.data : HNode → String
  | .node d _ => d

/-- Children of a node; the first entry is FirstChild. -/
def HNode.children : HNode → List HNode
  | .node _ cs => cs

/-- Loop of extractSelector over the selector matches (main.go lines
166-171): a matched element without a first child is skipped, otherwise
the data of its first child is emitted. -/
def selectLoop (ms : List HNode) : List String :=
  match ms with
  | [] => []
  | ele :: rest =>
    match ele.children.head? with
    | none => selectLoop rest
    | some c => c.data :: selectLoop rest

/-- Embedding of extractSelector (main.go lines 150-174) over the results
of the external collaborators: cssOk is whether css.Parse succeeded on the
selector, ms is what sel.Select returned on the parsed document. The
boolean result records whether an error was returned. -/
def extractSelector (cssOk : Bool) (ms : List HNode) : List String × Bool :=
  if cssOk then (selectLoop ms, false) else ([], true)

/-- A Target as handed to the consumer: the origin location together with
the collaborator views of its stream (token sequence, selector matches). -/
structure Target where
  location : String
  toks : List Token
  ms : List HNode

/-- Observable actions of the consumer: one line on standard output, one
diagnostic on standard error, or closing the target's stream. -/
inductive Event where
  | out : String → Event
  | diag : String → Event
  | close : Event

/-- Whether an event is a close. -/
def Event.isClose : Event → Bool
  | .close => true
  | _ => false

/-- Whether an event is an output line. -/
def Event.isOut : Event → Bool
  | .out _ => true
  | _ => false

/-- Whether an event is a diagnostic. -/
def Event.isDiag : Event → Bool
  | .diag _ => true
  | _ => false

/-- Embedding of one iteration of the consumer goroutine (main.go lines
61-90): dispatch on the mode, print the collected values, close the
reader. The switch's break statements only leave the switch, so the close
at line 89 runs in every completed iteration; the only non-completing case
is the nil-pointer dereference inside extractAttribs, modelled as none. -/
def consumeTarget (mode : String) (args : List String) (cssOk : Bool) (t : Target) :
    Option (List Event) :=
  if mode = "tags" then
    some ((extractTags t.toks args).map Event.out ++ [Event.close])
  else if mode = "attribs" then
    match extractAttribs t.location t.toks args with
    | Except.ok vals => some (vals.map Event.out ++ [Event.close])
    | Except.error _ => none
  else if mode = "comments" then
    some ((extractComments t.toks).map Event.out ++ [Event.close])
  else if mode = "query" then
    let p := extractSelector cssOk t.ms
    some ((if p.2 then [Event.diag "failed to parse CSS selector"] else []) ++
      p.1.map Event.out ++ [Event.close])
  else
    some ([Event.diag "unsupported mode", Event.close])

/-- The consumer goroutine over the whole sequence of received targets. -/
def consumeRun (mode : String) (args : List String) (cssOk : Bool) :
    List Target → Option (List Event)
  | [] => some []
  | t :: ts =>
    match consumeTarget mode args cssOk t with
    | none => none
    | some evs =>
      match consumeRun mode args cssOk ts with
      | none => none
      | some rest => some (evs ++ rest)

/-- Observable actions of the producing loop: a diagnostic, a dispatched
fetch, or a synchronously produced file target. -/
inductive ProdEvent where
  | diag : String → ProdEvent
  | dispatch : String → ProdEvent
  | fileTarget : String → ProdEvent
deriving DecidableEq

/-- Location classification of main.go lines 105-106: lowercase, then
check the http and https prefixes. -/
def classifyURL (location : String) : Bool :=
  startsWithGo (toLowerGo location) "http:" || startsWithGo (toLowerGo location) "https:"

/-- Embedding of the producing loop of main (main.go lines 100-142) over
the input lines; fileOpens is the filesystem collaborator (whether
os.Open succeeds). Each line is trimmed; URL-classified lines whose
request construction fails print a diagnostic and return from main (the
boolean result becomes false and no further line is read); file lines
that fail to open print a diagnostic and continue. -/
def producerRun (fileOpens : String → Bool) : List String → List ProdEvent × Bool
  | [] => ([], true)
  | line :: rest =>
    let location := trimGo line
    if classifyURL location then
      if newRequestOk location then
        (ProdEvent.dispatch location :: (producerRun fileOpens rest).1,
          (producerRun fileOpens rest).2)
      else ([ProdEvent.diag location], false)
    else if fileOpens location then
      (ProdEvent.fileTarget location :: (producerRun fileOpens rest).1,
        (producerRun fileOpens rest).2)
    else
      (ProdEvent.diag location :: (producerRun fileOpens rest).1,
        (producerRun fileOpens rest).2)

/-- The response as seen by the fetch callback: its body may be nil, and
otherwise holds the (possibly empty) byte content. -/
structure Resp where
  body : Option String

/-- Observable actions of the per-fetch callback: a diagnostic, or a
target handed into the channel with its origin and stream. -/
inductive FetchEvent where
  | diag : FetchEvent
  | target : String → String → FetchEvent

/-- Embedding of the fetch callback (main.go lines 123-130): a diagnostic
when the transport reported an error, and a target whenever the response
and its body are non-nil; finalURL is req.URL.String() of the callback's
request. The two conditions are tested independently. -/
def fetchCallback (finalURL : String) (resp : Option Resp) (err : Bool) : List FetchEvent :=
  (if err then [FetchEvent.diag] else []) ++
    (match resp with
    | some r =>
      (match r.body with
      | some b => [FetchEvent.target finalURL b]
      | none => [])
    | none => [])

/-- Spec-side rendering of the Attribs guard as the code evaluates it:
http-prefix, or https-prefix together with an attribute name of src or
href. -/
def specAttribCond (location attrib : String) : Bool :=
  startsWithGo (toLowerGo location) "http:" ||
    startsWithGo (toLowerGo location) "https:" && (attrib == "src" || attrib == "href")

/-- Spec-side rendering of the URL normalization rule of the spec: a
protocol-relative value gets https prepended; a root-relative value gets
scheme and host prepended; a value parsing as an absolute URL is
unchanged; anything else gets scheme, host and the origin's full path
prepended by plain concatenation. -/
def specNormalize (u : GoURL) (val : String) : String :=
  if startsWithGo val "//" then "https:" ++ val
  else if startsWithGo val "/" then u.scheme ++ "://" ++ u.host ++ val
  else if (parseRequestURI val).isSome then val
  else u.scheme ++ "://" ++ u.host ++ u.path ++ val

/-- Spec-side rendering of the Comments strategy: a filter-map over the
token sequence. -/
def specComments (toks : List Token) : List String :=
  toks.filterMap (fun t =>
    if t.typ = TokType.Comment then
      let d := trimGo (replaceNewlines t.data)
      (if d = "" then none else some d)
    else none)

/-- Spec-side rendering of the Query strategy output: the data of the
first child of every matched element that has one, in match order. -/
def specQuery (ms : List HNode) : List String :=
  ms.filterMap (fun e => (e.children.head?).map HNode.data)

/-- The inner tags loop does nothing when the current tag name is not
among the requested names. -/
theorem tagsInner_not_mem (d : String) (tags : List String) (rest : List Token)
    (h : d ∉ tags) : tagsInner d tags rest = (rest, []) := by
  induction tags generalizing rest with
  | nil => cases rest <;> simp [tagsInner]
  | cons tag tl ih =>
    have hd : d ≠ tag := fun e => h (e ▸ List.mem_cons_self _ _)
    have htl : d ∉ tl := fun hm => h (List.mem_cons_of_mem _ hm)
    cases rest with
    | nil => simpa [tagsInner, hd] using ih [] htl
    | cons n rest2 => simpa [tagsInner, hd] using ih (n :: rest2) htl

/-- With duplicate-free requested names, a matching tag name consumes
exactly the next token and emits its trimmed data exactly when it is a
non-blank text token. -/
theorem tagsInner_mem_nodup (d : String) (tags : List String) (hnd : tags.Nodup)
    (hmem : d ∈ tags) (n : Token) (rest2 : List Token) :
    tagsInner d tags (n :: rest2) =
      (rest2, if n.typ = TokType.Text ∧ trimGo n.data ≠ "" then [trimGo n.data] else []) := by
  induction tags with
  | nil => cases hmem
  | cons tag tl ih =>
    rcases List.mem_cons.mp hmem with he | hm
    · have htl : d ∉ tl := by
        subst he
        exact (List.nodup_cons.mp hnd).1
      subst he
      simp [tagsInner, tagsInner_not_mem d tl rest2 htl]
    · have hd : d ≠ tag := by
        intro e
        subst e
        exact (List.nodup_cons.mp hnd).1 hm
      simpa [tagsInner, hd] using ih (List.nodup_cons.mp hnd).2 hm

/-- The fuelled outer loop on an empty stream. -/
theorem extractTagsFuel_nil (tags : List String) (k : Nat) :
    extractTagsFuel tags k [] = [] := by
  cases k <;> rfl

/-- Any fuel at least the stream length computes the same result. -/
theorem extractTagsFuel_congr (tags : List String) :
    ∀ (k₁ k₂ : Nat) (toks : List Token), toks.length ≤ k₁ → toks.length ≤ k₂ →
      extractTagsFuel tags k₁ toks = extractTagsFuel tags k₂ toks := by
  intro k₁
  induction k₁ with
  | zero =>
    intro k₂ toks h1 _
    have he : toks = [] := List.length_eq_zero.mp (Nat.le_zero.mp h1)
    subst he
    simp [extractTagsFuel_nil]
  | succ k ih =>
    intro k₂ toks h1 h2
    cases toks with
    | nil => simp [extractTagsFuel_nil]
    | cons t rest =>
      cases k₂ with
      | zero => exact absurd h2 (by simp)
      | succ k2 =>
        simp only [extractTagsFuel]
        by_cases ht : t.typ = TokType.StartTag
        · rw [if_pos ht, if_pos ht]
          have hlen := tagsInner_length_le t.data tags rest
          have hr : rest.length ≤ k := by simpa using h1
          have hr2 : rest.length ≤ k2 := by simpa using h2
          rw [ih k2 (tagsInner t.data tags rest).1 (le_trans hlen hr) (le_trans hlen hr2)]
        · rw [if_neg ht, if_neg ht]
          exact ih k2 rest (by simpa using h1) (by simpa using h2)

/-- When the Attribs guard is false the raw attribute value is emitted. -/
theorem attribVal_of_cond_false (location attrib val : String)
    (h : specAttribCond location attrib = false) :
    attribVal location attrib val = Except.ok [val] := by
  simp only [specAttribCond] at h
  simp [attribVal, h]

/-- When the Attribs guard is true and the origin parses, the per-value
output is exactly the spec's normalization of the value. -/
theorem attribVal_norm (location attrib val : String) (u : GoURL)
    (hc : specAttribCond location attrib = true)
    (hu : parseRequestURI location = some u) :
    attribVal location attrib val = Except.ok [specNormalize u val] := by
  simp only [specAttribCond] at hc
  simp only [attribVal, hc, if_true, hu, specNormalize]
  cases hpv : parseRequestURI val <;> split_ifs <;> simp_all

/-- Mapping output lines contributes no close events. -/
theorem countP_close_map_out (l : List String) :
    List.countP Event.isClose (l.map Event.out) = 0 := by
  induction l with
  | nil => rfl
  | cons a l ih => simp [List.countP_cons, Event.isClose, ih]

/-- Mapping output lines contributes no diagnostics. -/
theorem countP_diag_map_out (l : List String) :
    List.countP Event.isDiag (l.map Event.out) = 0 := by
  induction l with
  | nil => rfl
  | cons a l ih => simp [List.countP_cons, Event.isDiag, ih]

/-- Claim C1 counterexample: on the HTTP origin http://example.com/p a
requested attribute named id (neither src nor href) with value /x is URL
normalized to http://example.com/x, not emitted raw, because Go parses the
guard as http-prefix OR (https-prefix AND src-or-href): the src/href
restriction only applies to the https branch. -/
theorem claim_C1_counterexample :
    extractAttribs "http://example.com/p"
        [⟨TokType.StartTag, "img", [("id", "/x")]⟩] ["id"] =
      Except.ok ["http://example.com/x"] ∧
    ("http://example.com/x" : String) ≠ "/x" :=
  ⟨rfl, by decide⟩

/-- Claim C1 amended: in Attribs mode the per-value URL normalization is
applied if and only if the lowercased origin starts with http:, or starts
with https: and the matched attribute name is src or href (the guard's
AND binds tighter than its OR); in every other case the raw attribute
value is emitted unchanged. -/
theorem claim_C1_amended (location attrib val : String) :
    (specAttribCond location attrib = false →
      attribVal location attrib val = Except.ok [val]) ∧
    (∀ u : GoURL, specAttribCond location attrib = true →
      parseRequestURI location = some u →
      attribVal location attrib val = Except.ok [specNormalize u val]) :=
  ⟨fun h => attribVal_of_cond_false location attrib val h,
   fun u hc hu => attribVal_norm location attrib val u hc hu⟩

/-- Witness for C1 at concrete inputs: a file-path origin emits the raw
value, and an http origin with a non src/href attribute normalizes. -/
theorem claim_C1_witness :
    attribVal "page.html" "src" "x.png" = Except.ok ["x.png"] ∧
    attribVal "http://example.com/p" "id" "/x" =
      Except.ok [specNormalize ⟨"http", "example.com", "/p"⟩ "/x"] :=
  ⟨(claim_C1_amended "page.html" "src" "x.png").1 (by decide),
   (claim_C1_amended "http://example.com/p" "id" "/x").2
     ⟨"http", "example.com", "/p"⟩ (by decide) (by decide)⟩

/-- Claim C2: the normalization applied by the Attribs strategy on a
parsed HTTP(S) origin follows the four-branch rule of the spec
(protocol-relative, root-relative, already absolute, plain concatenation
of the origin's full path), and in particular produces the three
documented outputs for origin https://example.com/dir/page.html,
including the non-path-joined https://example.com/dir/page.htmla.png. -/
theorem claim_C2 :
    (∀ (location attrib val : String) (u : GoURL),
      specAttribCond location attrib = true →
      parseRequestURI location = some u →
      attribVal location attrib val = Except.ok [specNormalize u val]) ∧
    attribVal "https://example.com/dir/page.html" "src" "/img/a.png" =
      Except.ok ["https://example.com/img/a.png"] ∧
    attribVal "https://example.com/dir/page.html" "src" "//cdn.com/a.png" =
      Except.ok ["https://cdn.com/a.png"] ∧
    attribVal "https://example.com/dir/page.html" "src" "a.png" =
      Except.ok ["https://example.com/dir/page.htmla.png"] :=
  ⟨fun location attrib val u hc hu => attribVal_norm location attrib val u hc hu,
   rfl, rfl, rfl⟩

/-- Witness for C2: the universal part applied at a concrete origin,
attribute and value. -/
theorem claim_C2_witness :
    attribVal "https://example.com/a" "href" "/x" =
      Except.ok [specNormalize ⟨"https", "example.com", "/a"⟩ "/x"] :=
  claim_C2.1 "https://example.com/a" "href" "/x" ⟨"https", "example.com", "/a"⟩
    (by decide) (by decide)

/-- Claim C10: when the origin passes the Attribs guard but fails
url.ParseRequestURI, the raw value is appended and control falls through
into the normalization branches with a nil parsed URL: a value starting
with a double slash is emitted a second time as https: plus the value,
and a value starting with a single slash dereferences the nil pointer
(modelled as Except.error). -/
theorem claim_C10 (location attrib val : String)
    (hc : specAttribCond location attrib = true)
    (hp : parseRequestURI location = none) :
    (startsWithGo val "//" = true →
      attribVal location attrib val = Except.ok [val, "https:" ++ val]) ∧
    (startsWithGo val "//" = false → startsWithGo val "/" = true →
      attribVal location attrib val = Except.error ()) := by
  simp only [specAttribCond] at hc
  constructor
  · intro h2
    simp [attribVal, hc, hp, h2]
  · intro h2 h1
    simp [attribVal, hc, hp, h2, h1]

/-- Witness for C10: the origin http://a:b/x has the http prefix but an
invalid port, so ParseRequestURI fails; a protocol-relative value is
emitted twice and a root-relative value hits the nil dereference. -/
theorem claim_C10_witness :
    attribVal "http://a:b/x" "id" "//c" = Except.ok ["//c", "https://c"] ∧
    attribVal "http://a:b/x" "id" "/c" = Except.error () :=
  ⟨(claim_C10 "http://a:b/x" "id" "//c" (by decide) (by decide)).1 (by decide),
   (claim_C10 "http://a:b/x" "id" "/c" (by decide) (by decide)).2 (by decide) (by decide)⟩

/-- Claim C5 counterexample: with the requested tag list containing the
name a twice, the start tag a consumes both following text tokens and
emits both, instead of consuming and emitting only the single next token
as the claim states (which would give the single line x): the inner loop
over the requested names calls z.Next once per matching entry. -/
theorem claim_C5_counterexample :
    extractTags [⟨TokType.StartTag, "a", []⟩, ⟨TokType.Text, "x", []⟩,
        ⟨TokType.Text, "y", []⟩] ["a", "a"] = ["x", "y"] ∧
    (["x", "y"] : List String) ≠ ["x"] :=
  ⟨rfl, by decide⟩

/-- Claim C5 amended: in Tags mode one following token is consumed per
occurrence of the matching name in the requested list; when the requested
tag names are duplicate-free, a start tag whose name is among them
consumes exactly the single next token and emits its trimmed data if and
only if it is a text token that is non-empty after trimming (so a
matching start tag followed by a non-text token yields nothing for that
occurrence), while a start tag whose name is not requested consumes
nothing extra. -/
theorem claim_C5_amended (tags : List String) (hnd : tags.Nodup) (name : String)
    (nxt : Token) (rest : List Token) :
    (name ∈ tags →
      extractTags (⟨TokType.StartTag, name, []⟩ :: nxt :: rest) tags =
        (if nxt.typ = TokType.Text ∧ trimGo nxt.data ≠ "" then [trimGo nxt.data] else []) ++
          extractTags rest tags) ∧
    (name ∉ tags →
      extractTags (⟨TokType.StartTag, name, []⟩ :: nxt :: rest) tags =
        extractTags (nxt :: rest) tags) := by
  constructor
  · intro hmem
    show extractTagsFuel tags (rest.length + 1 + 1) _ = _
    simp only [extractTagsFuel, if_pos rfl]
    rw [tagsInner_mem_nodup name tags hnd hmem nxt rest]
    rw [extractTagsFuel_congr tags (rest.length + 1) rest.length rest
      (Nat.le_succ _) (le_refl _)]
    rfl
  · intro hmem
    show extractTagsFuel tags (rest.length + 1 + 1) _ = _
    simp only [extractTagsFuel, if_pos rfl]
    rw [tagsInner_not_mem name tags (nxt :: rest) hmem]
    rfl

/-- Witness for C5: one requested name, a matching start tag followed by
a padded text token emits the trimmed text; the same stream with an
unrequested name emits nothing. -/
theorem claim_C5_witness :
    extractTags [⟨TokType.StartTag, "a", []⟩, ⟨TokType.Text, " hi ", []⟩] ["a"] =
      (if (⟨TokType.Text, " hi ", []⟩ : Token).typ = TokType.Text ∧
          trimGo (⟨TokType.Text, " hi ", []⟩ : Token).data ≠ "" then
        [trimGo (⟨TokType.Text, " hi ", []⟩ : Token).data] else []) ++
        extractTags [] ["a"] :=
  (claim_C5_amended ["a"] (by decide) "a" ⟨TokType.Text, " hi ", []⟩ []).1 (by decide)

/-- Claim C6: the Comments strategy emits, for every comment token in
stream order, the comment data with every newline replaced by a single
space and then trimmed, skipping empty results; on the comment
token of the document with a two-line comment the single emitted line is
line1 line2. -/
theorem claim_C6 :
    (∀ toks : List Token, extractComments toks = specComments toks) ∧
    extractComments [⟨TokType.Comment, " line1\nline2 ", []⟩] = ["line1 line2"] := by
  constructor
  · intro toks
    induction toks with
    | nil => rfl
    | cons t rest ih =>
      simp only [extractComments, specComments, List.filterMap_cons]
      by_cases ht : t.typ = TokType.Comment
      · rw [if_pos ht, if_pos ht]
        by_cases hd : trimGo (replaceNewlines t.data) = ""
        · rw [if_pos hd, if_pos hd]
          exact ih
        · rw [if_neg hd, if_neg hd]
          rw [ih]
          rfl
      · rw [if_neg ht, if_neg ht]
        exact ih
  · rfl

/-- Claim C7: in Query mode with a valid selector the output is exactly
the data of the first child of every matched element that has at least
one child, in match order, childless matches contributing nothing; on the
single match for title with text child Hi the output is Hi and no error
is reported. -/
theorem claim_C7 :
    (∀ ms : List HNode, extractSelector true ms = (specQuery ms, false)) ∧
    extractSelector true [HNode.node "title" [HNode.node "Hi" []]] = (["Hi"], false) := by
  constructor
  · intro ms
    simp only [extractSelector, if_pos trivial]
    refine Prod.ext ?_ rfl
    induction ms with
    | nil => rfl
    | cons e rest ih =>
      simp only [selectLoop, specQuery, List.filterMap_cons]
      cases hc : e.children.head? with
      | none => simpa [hc] using ih
      | some c => simpa [hc, Option.map_some] using ih
  · rfl

/-- Claim C3: whenever the consumer's iteration for a target completes
(every mode, strategy success, strategy error, unrecognized mode), the
trace contains exactly one close of the target's stream: the close at the
end of the loop body runs unconditionally. The only non-completing case
is the nil-pointer dereference documented in C10, which is neither a
success nor a returned error. -/
theorem claim_C3 (mode : String) (args : List String) (cssOk : Bool) (t : Target)
    (evs : List Event) (h : consumeTarget mode args cssOk t = some evs) :
    List.countP Event.isClose evs = 1 := by
  unfold consumeTarget at h
  split_ifs at h with h1 h2 h3 h4
  · have he := Option.some.inj h
    subst he
    simp [List.countP_append, countP_close_map_out, List.countP_cons, Event.isClose]
  · revert h
    cases hE : extractAttribs t.location t.toks args with
    | error e => intro h; exact absurd h (by simp)
    | ok vals =>
      intro h
      have he := Option.some.inj h
      subst he
      simp [List.countP_append, countP_close_map_out, List.countP_cons, Event.isClose]
  · have he := Option.some.inj h
    subst he
    simp [List.countP_append, countP_close_map_out, List.countP_cons, Event.isClose]
  · have he := Option.some.inj h
    subst he
    by_cases hp : (extractSelector cssOk t.ms).2 <;>
      simp [hp, List.countP_append, countP_close_map_out, List.countP_cons,
        Event.isClose, Event.isDiag]
  · have he := Option.some.inj h
    subst he
    simp [List.countP_cons, Event.isClose, Event.isDiag]

/-- Witness for C3 at a concrete target and mode. -/
theorem claim_C3_witness :
    List.countP Event.isClose [Event.diag "unsupported mode", Event.close] = 1 :=
  claim_C3 "bogus" [] true ⟨"f", [], []⟩
    [Event.diag "unsupported mode", Event.close] rfl

/-- A configuration error (unrecognized mode, or Query mode with an
invalid selector) makes the consumer's iteration for any target emit
exactly one diagnostic, no output line, and the close. -/
theorem consumeTarget_config (mode : String) (args : List String) (cssOk : Bool)
    (t : Target)
    (h : mode ∉ (["tags", "attribs", "comments", "query"] : List String) ∨
      (mode = "query" ∧ cssOk = false)) :
    ∃ m, consumeTarget mode args cssOk t = some [Event.diag m, Event.close] := by
  rcases h with h | ⟨hq, hc⟩
  · simp only [List.mem_cons, List.not_mem_nil, or_false, not_or] at h
    obtain ⟨h1, h2, h3, h4⟩ := h
    exact ⟨"unsupported mode", by simp [consumeTarget, h1, h2, h3, h4]⟩
  · subst hq
    subst hc
    exact ⟨"failed to parse CSS selector", rfl⟩

/-- Claim C4 counterexample: with the unrecognized mode bogus and two
targets in one run, the diagnostic is emitted twice, not exactly once per
run, because the mode dispatch sits inside the per-target consumer loop. -/
theorem claim_C4_counterexample :
    consumeRun "bogus" [] true [⟨"a", [], []⟩, ⟨"b", [], []⟩] =
      some [Event.diag "unsupported mode", Event.close,
        Event.diag "unsupported mode", Event.close] ∧
    List.countP Event.isDiag [Event.diag "unsupported mode", Event.close,
        Event.diag "unsupported mode", Event.close] = 2 ∧ (2 : Nat) ≠ 1 :=
  ⟨rfl, rfl, by decide⟩

/-- Claim C4 amended: configuration errors (unrecognized mode, invalid
selector in Query mode) are reported once per received target (so the
diagnostic repeats for every target of the run), contribute zero output
lines, and do not abort the run: every target is still processed and its
stream closed. -/
theorem claim_C4_amended (mode : String) (args : List String) (cssOk : Bool)
    (ts : List Target)
    (h : mode ∉ (["tags", "attribs", "comments", "query"] : List String) ∨
      (mode = "query" ∧ cssOk = false)) :
    ∃ evs, consumeRun mode args cssOk ts = some evs ∧
      List.countP Event.isDiag evs = ts.length ∧
      List.countP Event.isOut evs = 0 ∧
      List.countP Event.isClose evs = ts.length := by
  induction ts with
  | nil => exact ⟨[], rfl, rfl, rfl, rfl⟩
  | cons t ts ih =>
    obtain ⟨m, hm⟩ := consumeTarget_config mode args cssOk t h
    obtain ⟨evs, hrun, hd, ho, hc⟩ := ih
    refine ⟨[Event.diag m, Event.close] ++ evs, ?_, ?_, ?_, ?_⟩
    · simp [consumeRun, hm, hrun]
    · simp [List.countP_append, hd, List.countP_cons, Event.isDiag]
    · simp [List.countP_append, ho, List.countP_cons, Event.isOut]
    · simp [List.countP_append, hc, List.countP_cons, Event.isClose]

/-- Witness for C4 at a concrete unrecognized mode and one target. -/
theorem claim_C4_witness :
    ∃ evs, consumeRun "bogus" [] true [⟨"a", [], []⟩] = some evs ∧
      List.countP Event.isDiag evs = 1 ∧
      List.countP Event.isOut evs = 0 ∧
      List.countP Event.isClose evs = 1 := by
  simpa using claim_C4_amended "bogus" [] true [⟨"a", [], []⟩] (Or.inl (by decide))

/-- Claim C8: a URL-classified input line whose request construction
fails is fatal: the producing loop emits the diagnostic and stops with
the remaining lines unprocessed (the result does not depend on them),
while a file-classified line that fails to open emits a diagnostic and
processing continues with the remaining lines. -/
theorem claim_C8 (fileOpens : String → Bool) (line : String) (rest : List String) :
    (classifyURL (trimGo line) = true → newRequestOk (trimGo line) = false →
      producerRun fileOpens (line :: rest) = ([ProdEvent.diag (trimGo line)], false)) ∧
    (classifyURL (trimGo line) = false → fileOpens (trimGo line) = false →
      producerRun fileOpens (line :: rest) =
        (ProdEvent.diag (trimGo line) :: (producerRun fileOpens rest).1,
          (producerRun fileOpens rest).2)) := by
  constructor
  · intro hc hn
    simp [producerRun, hc, hn]
  · intro hc hf
    simp [producerRun, hc, hf]

/-- Witness for C8: http://a:b has the URL prefix but an invalid port, so
request construction fails and the run aborts regardless of the next
line; a missing file only skips its line. -/
theorem claim_C8_witness :
    producerRun (fun _ => false) ["http://a:b", "next"] =
      ([ProdEvent.diag (trimGo "http://a:b")], false) ∧
    producerRun (fun _ => false) ["f.html", "g.html"] =
      (ProdEvent.diag (trimGo "f.html") :: (producerRun (fun _ => false) ["g.html"]).1,
        (producerRun (fun _ => false) ["g.html"]).2) :=
  ⟨(claim_C8 (fun _ => false) "http://a:b" ["next"]).1 (by decide) (by decide),
   (claim_C8 (fun _ => false) "f.html" ["g.html"]).2 (by decide) rfl⟩

/-- Claim C9 counterexample: a successful response whose body is non-nil
but empty (zero bytes) still has a Target handed off, so the hand-off is
not conditioned on the body being non-empty; the code only checks that
the response and its body are non-nil. -/
theorem claim_C9_counterexample :
    fetchCallback "http://x/" (some ⟨some ""⟩) false =
      [FetchEvent.target "http://x/" ""] ∧
    ("" : String).length = 0 :=
  ⟨rfl, rfl⟩

/-- Claim C9 amended: under the HTTP client contract (a transport error
comes with a nil response), a transport error emits the diagnostic and
produces no Target; on success a Target is handed off if and only if the
response and its body are non-nil (even a zero-length body), with origin
the final request URL and stream the response body. -/
theorem claim_C9_amended (finalURL : String) (resp : Option Resp) (err : Bool)
    (hcontract : err = true → resp = none) :
    (err = true → fetchCallback finalURL resp err = [FetchEvent.diag]) ∧
    (∀ b, err = false → resp = some ⟨some b⟩ →
      fetchCallback finalURL resp err = [FetchEvent.target finalURL b]) ∧
    (err = false → (∀ b, resp ≠ some ⟨some b⟩) →
      fetchCallback finalURL resp err = []) := by
  refine ⟨?_, ?_, ?_⟩
  · intro he
    subst he
    rw [hcontract rfl]
    rfl
  · intro b he hr
    subst he
    subst hr
    rfl
  · intro he hb
    subst he
    cases resp with
    | none => rfl
    | some r =>
      obtain ⟨rb⟩ := r
      cases rb with
      | none => rfl
      | some b => exact absurd rfl (hb b)

/-- Witness for C9 at a concrete successful fetch. -/
theorem claim_C9_witness :
    fetchCallback "http://x/" (some ⟨some "<html>"⟩) false =
      [FetchEvent.target "http://x/" "<html>"] :=
  (claim_C9_amended "http://x/" (some ⟨some "<html>"⟩) false
    (fun h => nomatch h)).2.1 "<html>" rfl rfl

end HT

